import Mathlib

/-
Shallow embedding of the notebook code in this repository:

* `generate_images` from
  `notebooks/sagemaker-studiolab/stable-diffusion-image-generation.ipynb`
  (the batch image-generation loop around the external Stable Diffusion
  pipeline), together with the glob-and-upload loop of the same notebook.
* the `EXP_DIR` selection expression of the YOLOv7 notebook,
  `sorted(os.listdir(d), key=lambda x: int(x.replace("exp", "") or 0))[-1]`.

External calls (the diffusion pipeline, `image.save`, the Roboflow SDK
upload) are modelled as oracle functions returning `Except`; the loops are
translated into trace-producing functions so that the order and identity of
every external effect is captured.  Python strings are modelled as lists of
characters (`Str`).
-/

namespace Notebooks

/-- Python strings are modelled as lists of characters. -/
abbrev Str := List Char

/-- Conversion from Lean string literals into the model's string type. -/
def str (s : String) : Str := s.data

/-- Numeric value of a decimal digit character. -/
def digitVal (c : Char) : Nat := c.toNat - 48

/-- Value of a string of decimal digits (most significant first). -/
def digitsVal (s : Str) : Nat := s.foldl (fun a c => 10 * a + digitVal c) 0

/-- Fuel-based core of the decimal representation of a natural number,
accumulating digits least-significant-first into `acc`. -/
def decReprCore : Nat → Nat → Str → Str
  | 0, _, acc => acc
  | fuel + 1, n, acc =>
      if n < 10 then Nat.digitChar (n % 10) :: acc
      else decReprCore fuel (n / 10) (Nat.digitChar (n % 10) :: acc)

/-- Decimal representation of a natural number, as produced by Python
`str(n)` for a non-negative integer `n` (no sign, no padding). -/
def decRepr (n : Nat) : Str := decReprCore (n + 1) n []

/-- The filename used by the generation loop for the image of global index
`k`: the Python f-string `f"{output_dir}/image_{k}.png"` (where in the source
`k` is `(i*num_images_per_prompt)+idx`). -/
def imageName (output_dir : Str) (k : Nat) : Str :=
  output_dir ++ str "/image_" ++ decRepr k ++ str ".png"

/-- An opaque-to-the-model Python exception value (its message). -/
abbrev PyErr := Str

/-- Observable external effects of `generate_images`, in execution order:
the `os.makedirs(output_dir, exist_ok=True)` call, each invocation of the
external diffusion pipeline (with the arguments it receives), each
`image.save(image_name)` and each inline `display` of a saved image. -/
inductive Ev (Image : Type) where
  | makedirs (dir : Str) (exist_ok : Bool)
  | pipelineCall (prompt : Str) (num_images_per_prompt guidance_scale : Nat)
  | save (path : Str) (img : Image)
  | display (path : Str)
  deriving DecidableEq

section Generate

variable {Image : Type}

/-- Inner loop of `generate_images`:
`for idx, image in enumerate(images.images): ...` applied to the
`enumerate` pairs.  `save` is the external `image.save` call, which may
raise; on a raise the loop stops with the events completed so far. -/
def saveBatch (save : Str → Image → Except PyErr Unit)
    (display_images : Bool) (output_dir : Str)
    (i num_images_per_prompt : Nat) :
    List (Nat × Image) → List (Ev Image) × Option PyErr
  | [] => ([], none)
  | (idx, image) :: rest =>
      let image_name := imageName output_dir (i * num_images_per_prompt + idx)
      match save image_name image with
      | .error e => ([], some e)
      | .ok _ =>
          let r := saveBatch save display_images output_dir i
            num_images_per_prompt rest
          (Ev.save image_name image ::
            (if display_images then Ev.display image_name :: r.1 else r.1),
            r.2)

/-- Outer loop of `generate_images`: `for i in range(num_iterations): ...`.
The external pipeline is an oracle from the iteration number to the list
`images.images` it returns (or to the exception it raises); iteration `i`
with `fuel` iterations remaining processes `i, i+1, ..., i+fuel-1`. -/
def genLoop (pipeline : Nat → Except PyErr (List Image))
    (save : Str → Image → Except PyErr Unit)
    (prompt : Str) (num_images_per_prompt guidance_scale : Nat)
    (output_dir : Str) (display_images : Bool) :
    Nat → Nat → List (Ev Image) × Option PyErr
  | _, 0 => ([], none)
  | i, fuel + 1 =>
      match pipeline i with
      | .error e =>
          ([Ev.pipelineCall prompt num_images_per_prompt guidance_scale],
            some e)
      | .ok imgs =>
          let batch := saveBatch save display_images output_dir i
            num_images_per_prompt imgs.enum
          match batch.2 with
          | some e =>
              (Ev.pipelineCall prompt num_images_per_prompt guidance_scale ::
                batch.1, some e)
          | none =>
              let rest := genLoop pipeline save prompt num_images_per_prompt
                guidance_scale output_dir display_images (i + 1) fuel
              (Ev.pipelineCall prompt num_images_per_prompt guidance_scale ::
                (batch.1 ++ rest.1), rest.2)

/-- The `generate_images` function of the diffusion notebook.  Source:

    def generate_images(prompt, num_images_to_generate,
        num_images_per_prompt=4, guidance_scale=8,
        output_dir="generated_images", display_images=False):
      num_iterations = num_images_to_generate // num_images_per_prompt
      os.makedirs(output_dir, exist_ok=True)
      for i in range(num_iterations):
        images = pipeline(prompt, num_images_per_prompt=num_images_per_prompt,
                          guidance_scale=guidance_scale)
        for idx, image in enumerate(images.images):
          image_name = ...  # the f-string modelled by imageName
          image.save(image_name)
          if display_images: display(Image(filename=image_name, ...))

The result is the list of external effects in order, paired with the
exception propagating out of the call (`none` for a completed call). -/
def generate_images (pipeline : Nat → Except PyErr (List Image))
    (save : Str → Image → Except PyErr Unit)
    (prompt : Str) (num_images_to_generate : Nat)
    (num_images_per_prompt : Nat := 4) (guidance_scale : Nat := 8)
    (output_dir : Str := str "generated_images")
    (display_images : Bool := false) : List (Ev Image) × Option PyErr :=
  let num_iterations := num_images_to_generate / num_images_per_prompt
  let run := genLoop pipeline save prompt num_images_per_prompt
    guidance_scale output_dir display_images 0 num_iterations
  (Ev.makedirs output_dir true :: run.1, run.2)

/-- Paths of the files saved in a trace, in order. -/
def savedPaths (tr : List (Ev Image)) : List Str :=
  tr.filterMap fun e => match e with
    | .save p _ => some p
    | _ => none

/-- Images saved in a trace, in order. -/
def savedImages (tr : List (Ev Image)) : List Image :=
  tr.filterMap fun e => match e with
    | .save _ im => some im
    | _ => none

/-- Number of invocations of the external pipeline recorded in a trace. -/
def pipelineCalls (tr : List (Ev Image)) : Nat :=
  tr.countP fun e => match e with
    | .pipelineCall .. => true
    | _ => false

/-- Filesystem location written by an event, if any (`display` writes
nothing). -/
def writeTarget : Ev Image → Option Str
  | .makedirs d _ => some d
  | .save p _ => some p
  | .pipelineCall .. => none
  | .display _ => none

end Generate

/-- Observable external effects of the upload loop, in execution order:
each `upload_project.upload(image, num_retry_uploads=3)` invocation (with
the arguments it receives) and each `print` of a progress line. -/
inductive UpEv where
  | upload (path : Str) (num_retry_uploads : Nat)
  | printLine (line : Str)
  deriving DecidableEq

/-- The progress line printed after each upload:
`"*** Processing image [" + str(len(image_glob)) + "] - " + image + " ***"`. -/
def progressLine (total : Nat) (image : Str) : Str :=
  str "*** Processing image [" ++ decRepr total ++ str "] - " ++
    image ++ str " ***"

/-- Body of the upload loop over the remaining glob results; `total` is
`len(image_glob)` of the full glob list (the loop always prints the full
count).  `upload` is the external SDK call, which may raise. -/
def uploadGo (upload : Str → Nat → Except PyErr Unit) (total : Nat) :
    List Str → List UpEv × Option PyErr
  | [] => ([], none)
  | image :: rest =>
      match upload image 3 with
      | .error e => ([UpEv.upload image 3], some e)
      | .ok _ =>
          let r := uploadGo upload total rest
          (UpEv.upload image 3 :: UpEv.printLine (progressLine total image) ::
            r.1, r.2)

/-- The upload loop of the diffusion notebook:

    for image in image_glob:
        upload_project.upload(image, num_retry_uploads=3)
        print("*** Processing image [" + str(len(image_glob)) + "] - "
              + image + " ***")
-/
def upload_images (upload : Str → Nat → Except PyErr Unit)
    (image_glob : List Str) : List UpEv × Option PyErr :=
  uploadGo upload image_glob.length image_glob

/-- Paths passed to the external upload call in a trace, in order. -/
def uploadedPaths (tr : List UpEv) : List Str :=
  tr.filterMap fun e => match e with
    | .upload p _ => some p
    | _ => none

/-- Lines printed in a trace, in order. -/
def printedLines (tr : List UpEv) : List Str :=
  tr.filterMap fun e => match e with
    | .printLine s => some s
    | _ => none

/-- A top-level entry of the local `generated_images` directory: either a
regular file, or a subdirectory together with the names of the files
inside it. -/
inductive FsEntry where
  | file (name : Str)
  | dir (name : Str) (contents : List Str)
  deriving DecidableEq

/-- Name of a directory entry. -/
def entryName : FsEntry → Str
  | .file n => n
  | .dir n _ => n

/-- Whether a name matches the final `*.png` component of the glob
pattern, under Python `glob` semantics: `*` matches any sequence of
characters within one path component, but an entry whose name begins with
a period is skipped because the pattern component does not itself begin
with a period. -/
def globMatch (name : Str) : Bool :=
  match name with
  | '.' :: _ => false
  | _ =>
      match name.reverse with
      | 'g' :: 'n' :: 'p' :: '.' :: _ => true
      | _ => false

/-- The directory the upload cell globs:
`image_dir = os.path.join(HOME, "generated_images", "")`, for a `HOME`
(from `os.getcwd()`) with no trailing separator. -/
def image_dir (home : Str) : Str := home ++ str "/generated_images/"

/-- The glob of the upload cell,
`glob.glob(image_dir + '/*' + file_extension_type)` with
`file_extension_type = ".png"`: every matching top-level entry of the
directory, as the joined path `image_dir + name`, in directory-listing
order.  (Python's `glob` strips the doubled separator of the pattern when
joining, so the result paths contain a single separator.) -/
def glob_glob (dirPath : Str) (entries : List FsEntry) : List Str :=
  entries.filterMap fun e =>
    if globMatch (entryName e) then some (dirPath ++ entryName e) else none

/-- Python `str.replace("exp", "")` specialised to its use in the YOLOv7
notebook: removes every non-overlapping occurrence of `"exp"`, scanning
left to right. -/
def replaceExpEmpty : Str → Str
  | 'e' :: 'x' :: 'p' :: rest => replaceExpEmpty rest
  | c :: rest => c :: replaceExpEmpty rest
  | [] => []

/-- Parse a run of decimal digits possibly separated by single
underscores (Python integer-literal grammar), given the value of the
digits consumed so far.  Fails on anything else. -/
def pyIntDigits (acc : Nat) : Str → Option Nat
  | [] => some acc
  | '_' :: c :: rest =>
      if c.isDigit then pyIntDigits (10 * acc + digitVal c) rest else none
  | ['_'] => none
  | c :: rest =>
      if c.isDigit then pyIntDigits (10 * acc + digitVal c) rest else none

/-- Strip surrounding whitespace, as Python `int` does before parsing. -/
def pyStrip (s : Str) : Str :=
  ((s.dropWhile Char.isWhitespace).reverse.dropWhile
    Char.isWhitespace).reverse

/-- Python `int(s)` on a string: optional surrounding whitespace, an
optional sign, then a non-empty run of digits (with single underscores
allowed between digits).  `none` models the `ValueError` raise. -/
def pyInt (s : Str) : Option Int :=
  match pyStrip s with
  | '-' :: c :: rest =>
      if c.isDigit then (pyIntDigits (digitVal c) rest).map
        (fun n => -(n : Int)) else none
  | '+' :: c :: rest =>
      if c.isDigit then (pyIntDigits (digitVal c) rest).map
        (fun n => (n : Int)) else none
  | c :: rest =>
      if c.isDigit then (pyIntDigits (digitVal c) rest).map
        (fun n => (n : Int)) else none
  | [] => none

/-- The sort key `lambda x: int(x.replace("exp", "") or 0)` of the YOLOv7
notebook; `none` models the exception the key raises. -/
def expKey (x : Str) : Option Int :=
  let s := replaceExpEmpty x
  if s = [] then some 0 else pyInt s

/-- Apply `expKey` to every entry, pairing each entry with its key;
`none` as soon as any key computation raises (as `sorted` does when its
key function raises). -/
def decorateKeys : List Str → Option (List (Int × Str))
  | [] => some []
  | x :: rest =>
      match expKey x, decorateKeys rest with
      | some k, some ps => some ((k, x) :: ps)
      | _, _ => none

/-- The `EXP_DIR` selection of the YOLOv7 notebook,

    sorted(os.listdir(d), key=lambda x: int(x.replace("exp", "") or 0))[-1]

applied to a directory listing: stable ascending sort by the numeric key,
then the last element.  `none` models an exception (a `ValueError` from
`int`, or the `IndexError` of `[-1]` on an empty listing). -/
def EXP_DIR (listing : List Str) : Option Str :=
  match decorateKeys listing with
  | none => none
  | some keyed =>
      ((keyed.insertionSort fun a b => a.1 ≤ b.1).map Prod.snd).getLast?

section TraceShapes

variable {Image : Type}

/-- The events produced by one complete inner loop of `generate_images`
over the `enumerate` pairs `l` of the batch of iteration `i`, when every
save succeeds. -/
def batchEvs (display_images : Bool) (output_dir : Str)
    (i num_images_per_prompt : Nat) (l : List (Nat × Image)) :
    List (Ev Image) :=
  l.flatMap fun p =>
    Ev.save (imageName output_dir (i * num_images_per_prompt + p.1)) p.2 ::
      (if display_images then
        [Ev.display (imageName output_dir (i * num_images_per_prompt + p.1))]
      else [])

/-- The events produced by one complete outer iteration `j` of
`generate_images`, when the pipeline and every save succeed. -/
def blockEvs (prompt : Str) (num_images_per_prompt guidance_scale : Nat)
    (output_dir : Str) (display_images : Bool) (imgs : Nat → List Image)
    (j : Nat) : List (Ev Image) :=
  Ev.pipelineCall prompt num_images_per_prompt guidance_scale ::
    batchEvs display_images output_dir j num_images_per_prompt (imgs j).enum

end TraceShapes

/-- The events produced by one complete iteration of the upload loop on
the file `image`, when the upload succeeds. -/
def upBlock (total : Nat) (image : Str) : List UpEv :=
  [UpEv.upload image 3, UpEv.printLine (progressLine total image)]

/-- External call that always succeeds (used to instantiate the save and
upload oracles on concrete runs). -/
def okOracle : Str → Nat → Except PyErr Unit := fun _ _ => .ok ()

/-- A concrete batch sequence: iteration `i` yields the four distinct
images `4*i, ..., 4*i+3`. -/
def imgsFour : Nat → List Nat := fun i => [4 * i, 4 * i + 1, 4 * i + 2, 4 * i + 3]

/-- A pipeline oracle that always succeeds with `imgsFour`. -/
def pipeFour : Nat → Except PyErr (List Nat) := fun i => .ok (imgsFour i)

/-- A concrete batch sequence of two images per call. -/
def imgsTwo : Nat → List Nat := fun i => [2 * i, 2 * i + 1]

/-- A pipeline oracle that always succeeds with `imgsTwo`. -/
def pipeTwo : Nat → Except PyErr (List Nat) := fun i => .ok (imgsTwo i)

/-- A pipeline oracle that raises on its third invocation. -/
def pipeTwoFailAt2 : Nat → Except PyErr (List Nat) := fun i =>
  if i = 2 then .error (str "CUDA out of memory") else .ok (imgsTwo i)

/-- A save oracle that raises exactly on the image value `7`. -/
def saveFailOn7 : Str → Nat → Except PyErr Unit := fun _ im =>
  if im = 7 then .error (str "disk full") else .ok ()

/-- An upload oracle that raises exactly on the path `"d/b.png"`. -/
def uploadFailB : Str → Nat → Except PyErr Unit := fun p _ =>
  if p = str "d/b.png" then .error (str "HTTP 502") else .ok ()

/-- A concrete directory listing: a png file, a txt file, and a
subdirectory whose name ends in `.png` and which contains a png file. -/
def cexEntries : List FsEntry :=
  [FsEntry.file (str "a.png"), FsEntry.file (str "b.txt"),
    FsEntry.dir (str "c.png") [str "x.png"]]


/-! ## Theorems -/

theorem decReprCore_acc :
    ∀ fuel n acc, decReprCore fuel n acc = decReprCore fuel n [] ++ acc := by
  intro fuel
  induction fuel with
  | zero => intro n acc; simp [decReprCore]
  | succ fuel ih =>
      intro n acc
      by_cases h : n < 10
      · simp [decReprCore, h]
      · simp only [decReprCore, if_neg h]
        rw [ih (n / 10) (Nat.digitChar (n % 10) :: acc),
          ih (n / 10) [Nat.digitChar (n % 10)]]
        simp

theorem digitVal_digitChar {d : Nat} (h : d < 10) :
    digitVal (Nat.digitChar d) = d := by
  interval_cases d <;> decide

theorem digitsVal_append_singleton (l : Str) (c : Char) :
    digitsVal (l ++ [c]) = 10 * digitsVal l + digitVal c := by
  simp [digitsVal, List.foldl_append]

theorem digitsVal_decReprCore :
    ∀ fuel n, n < 10 ^ fuel → digitsVal (decReprCore fuel n []) = n := by
  intro fuel
  induction fuel with
  | zero =>
      intro n hn
      have : n = 0 := by omega
      subst this
      simp [decReprCore, digitsVal]
  | succ fuel ih =>
      intro n hn
      by_cases h : n < 10
      · have hmod : n % 10 = n := Nat.mod_eq_of_lt h
        simp [decReprCore, h, digitsVal, hmod, digitVal_digitChar (hmod ▸ Nat.mod_lt n (by omega))]
      · have hlt : n / 10 < 10 ^ fuel := by
          rw [pow_succ] at hn
          exact Nat.div_lt_of_lt_mul (by omega)
        have hd : n % 10 < 10 := Nat.mod_lt n (by omega)
        simp only [decReprCore, if_neg h]
        rw [decReprCore_acc, digitsVal_append_singleton, ih (n / 10) hlt,
          digitVal_digitChar hd]
        omega

theorem digitsVal_decRepr (n : Nat) : digitsVal (decRepr n) = n := by
  apply digitsVal_decReprCore
  calc n < 2 ^ n := Nat.lt_two_pow n
    _ ≤ 10 ^ n := Nat.pow_le_pow_left (by omega) n
    _ ≤ 10 ^ (n + 1) := Nat.pow_le_pow_right (by omega) (by omega)

theorem decRepr_injective : Function.Injective decRepr := by
  intro m n h
  rw [← digitsVal_decRepr m, ← digitsVal_decRepr n, h]

theorem imageName_injective (output_dir : Str) :
    Function.Injective (imageName output_dir) := by
  intro k j h
  unfold imageName at h
  have h1 := List.append_cancel_right h
  have h2 := List.append_cancel_left h1
  exact decRepr_injective h2

section GenerateTheorems

variable {Image : Type}

theorem saveBatch_ok (save : Str → Image → Except PyErr Unit)
    (disp : Bool) (dir : Str) (i npp : Nat) (l : List (Nat × Image))
    (hs : ∀ p ∈ l, save (imageName dir (i * npp + p.1)) p.2 = .ok ()) :
    saveBatch save disp dir i npp l = (batchEvs disp dir i npp l, none) := by
  induction l with
  | nil => rfl
  | cons p rest ih =>
      obtain ⟨idx, image⟩ := p
      have h₁ := hs (idx, image) (List.mem_cons_self _ _)
      simp only [saveBatch, h₁]
      rw [ih (fun q hq => hs q (List.mem_cons_of_mem _ hq))]
      cases disp <;> simp [batchEvs, List.flatMap_cons]

theorem genLoop_ok (pipeline : Nat → Except PyErr (List Image))
    (save : Str → Image → Except PyErr Unit)
    (prompt : Str) (npp gs : Nat) (dir : Str) (disp : Bool)
    (imgs : Nat → List Image) :
    ∀ fuel i, (∀ j, i ≤ j → j < i + fuel → pipeline j = .ok (imgs j)) →
    (∀ p im, save p im = .ok ()) →
    genLoop pipeline save prompt npp gs dir disp i fuel =
      ((List.range' i fuel).flatMap (blockEvs prompt npp gs dir disp imgs),
        none) := by
  intro fuel
  induction fuel with
  | zero => intro i _ _; rfl
  | succ fuel ih =>
      intro i hp hs
      have hpi : pipeline i = .ok (imgs i) := hp i le_rfl (by omega)
      have hbatch := saveBatch_ok save disp dir i npp (imgs i).enum
        (fun p _ => hs _ _)
      simp only [genLoop, hpi, hbatch]
      rw [ih (i + 1) (fun j h1 h2 => hp j (by omega) (by omega)) hs]
      rw [List.range'_succ, List.flatMap_cons]
      simp [blockEvs]

theorem generate_images_ok (pipeline : Nat → Except PyErr (List Image))
    (save : Str → Image → Except PyErr Unit)
    (prompt : Str) (total npp gs : Nat) (dir : Str) (disp : Bool)
    (imgs : Nat → List Image)
    (hp : ∀ j, pipeline j = .ok (imgs j))
    (hs : ∀ p im, save p im = .ok ()) :
    generate_images pipeline save prompt total npp gs dir disp =
      (Ev.makedirs dir true ::
        (List.range (total / npp)).flatMap (blockEvs prompt npp gs dir disp imgs),
        none) := by
  simp only [generate_images]
  rw [genLoop_ok pipeline save prompt npp gs dir disp imgs (total / npp) 0
    (fun j _ _ => hp j) hs, List.range_eq_range']

theorem savedPaths_append (a b : List (Ev Image)) :
    savedPaths (a ++ b) = savedPaths a ++ savedPaths b :=
  List.filterMap_append a b _

theorem savedPaths_batchEvs (disp : Bool) (dir : Str) (i npp : Nat)
    (l : List (Nat × Image)) :
    savedPaths (batchEvs disp dir i npp l) =
      l.map fun p => imageName dir (i * npp + p.1) := by
  induction l with
  | nil => rfl
  | cons p rest ih =>
      cases disp <;>
        simp_all [batchEvs, savedPaths, List.flatMap_cons, List.filterMap_cons]

theorem savedImages_batchEvs (disp : Bool) (dir : Str) (i npp : Nat)
    (l : List (Nat × Image)) :
    savedImages (batchEvs disp dir i npp l) = l.map Prod.snd := by
  induction l with
  | nil => rfl
  | cons p rest ih =>
      cases disp <;>
        simp_all [batchEvs, savedImages, List.flatMap_cons, List.filterMap_cons]

theorem pipelineCalls_batchEvs (disp : Bool) (dir : Str) (i npp : Nat)
    (l : List (Nat × Image)) :
    pipelineCalls (batchEvs disp dir i npp l) = 0 := by
  apply List.countP_eq_zero.mpr
  intro a ha
  rcases List.mem_flatMap.mp ha with ⟨p, hp, hmem⟩
  rcases List.mem_cons.mp hmem with rfl | h2
  · simp
  · cases disp with
    | false => simp at h2
    | true =>
        rcases List.mem_singleton.mp (by simpa using h2) with rfl
        simp

theorem enum_map_fst_comp {β : Type _} (l : List Image) (f : Nat → β) :
    l.enum.map (fun p => f p.1) = (List.range l.length).map f := by
  have h : (fun p : Nat × Image => f p.1) = f ∘ Prod.fst := rfl
  rw [h, ← List.map_map, List.enum_map_fst]

theorem range_flatMap_mul {β : Type _} (f : Nat → β) (npp : Nat) :
    ∀ n, (List.range n).flatMap
        (fun j => (List.range npp).map fun t => f (j * npp + t)) =
      (List.range (n * npp)).map f := by
  intro n
  induction n with
  | zero => simp
  | succ n ih =>
      rw [List.range_succ, List.flatMap_append, ih, Nat.succ_mul,
        List.range_add, List.map_append, List.map_map]
      simp [Function.comp]

theorem savedPaths_run (pipeline : Nat → Except PyErr (List Image))
    (save : Str → Image → Except PyErr Unit)
    (prompt : Str) (total npp gs : Nat) (dir : Str) (disp : Bool)
    (imgs : Nat → List Image)
    (hp : ∀ j, pipeline j = .ok (imgs j))
    (hs : ∀ p im, save p im = .ok ())
    (hlen : ∀ j, (imgs j).length = npp) :
    savedPaths (generate_images pipeline save prompt total npp gs dir disp).1 =
      (List.range (total / npp * npp)).map (imageName dir) := by
  rw [generate_images_ok pipeline save prompt total npp gs dir disp imgs hp hs]
  show savedPaths (Ev.makedirs dir true ::
    (List.range (total / npp)).flatMap (blockEvs prompt npp gs dir disp imgs)) = _
  rw [show savedPaths (Ev.makedirs dir true ::
      (List.range (total / npp)).flatMap (blockEvs prompt npp gs dir disp imgs)) =
      savedPaths ((List.range (total / npp)).flatMap
        (blockEvs prompt npp gs dir disp imgs)) from rfl]
  unfold savedPaths
  rw [List.filterMap_flatMap]
  have hblock : ∀ j, List.filterMap
      (fun e : Ev Image => match e with | .save p _ => some p | _ => none)
      (blockEvs prompt npp gs dir disp imgs j) =
      (List.range npp).map fun t => imageName dir (j * npp + t) := by
    intro j
    have h1 : List.filterMap
        (fun e : Ev Image => match e with | .save p _ => some p | _ => none)
        (blockEvs prompt npp gs dir disp imgs j) =
        savedPaths (batchEvs disp dir j npp (imgs j).enum) := rfl
    rw [h1, savedPaths_batchEvs]
    have h2 := enum_map_fst_comp (imgs j) (fun t => imageName dir (j * npp + t))
    rw [hlen j] at h2
    exact h2
  rw [List.flatMap_congr (fun j _ => hblock j)]
  exact range_flatMap_mul (imageName dir) npp (total / npp)

theorem pipelineCalls_flatMap_blockEvs (prompt : Str) (npp gs : Nat)
    (dir : Str) (disp : Bool) (imgs : Nat → List Image) :
    ∀ L : List Nat,
      pipelineCalls (L.flatMap (blockEvs prompt npp gs dir disp imgs)) =
        L.length := by
  intro L
  induction L with
  | nil => rfl
  | cons j rest ih =>
      show pipelineCalls (blockEvs prompt npp gs dir disp imgs j ++
        rest.flatMap (blockEvs prompt npp gs dir disp imgs)) = rest.length + 1
      unfold pipelineCalls at ih ⊢
      rw [List.countP_append, ih]
      show List.countP _ (Ev.pipelineCall prompt npp gs ::
        batchEvs disp dir j npp (imgs j).enum) + rest.length = rest.length + 1
      rw [List.countP_cons]
      have h0 := @pipelineCalls_batchEvs Image disp dir j npp (imgs j).enum
      unfold pipelineCalls at h0
      rw [h0]
      simp
      omega

theorem savedImages_flatMap_blockEvs (prompt : Str) (npp gs : Nat)
    (dir : Str) (disp : Bool) (imgs : Nat → List Image) (L : List Nat) :
    savedImages (L.flatMap (blockEvs prompt npp gs dir disp imgs)) =
      L.flatMap imgs := by
  unfold savedImages
  rw [List.filterMap_flatMap]
  apply List.flatMap_congr
  intro j _
  show savedImages (blockEvs prompt npp gs dir disp imgs j) = imgs j
  show savedImages (batchEvs disp dir j npp (imgs j).enum) = imgs j
  rw [savedImages_batchEvs, List.enum_map_snd]

theorem uploadGo_ok (upload : Str → Nat → Except PyErr Unit) (total : Nat)
    (l : List Str) (hu : ∀ p ∈ l, upload p 3 = .ok ()) :
    uploadGo upload total l = (l.flatMap (upBlock total), none) := by
  induction l with
  | nil => rfl
  | cons image rest ih =>
      have h₁ := hu image (List.mem_cons_self _ _)
      simp only [uploadGo, h₁]
      rw [ih (fun q hq => hu q (List.mem_cons_of_mem _ hq))]
      simp [upBlock, List.flatMap_cons]

theorem upload_images_ok (upload : Str → Nat → Except PyErr Unit)
    (gl : List Str) (hu : ∀ p n, upload p n = .ok ()) :
    upload_images upload gl = (gl.flatMap (upBlock gl.length), none) :=
  uploadGo_ok upload gl.length gl (fun p _ => hu p 3)

theorem uploadedPaths_flatMap_upBlock (total : Nat) (l : List Str) :
    uploadedPaths (l.flatMap (upBlock total)) = l := by
  induction l with
  | nil => rfl
  | cons image rest ih =>
      simp_all [upBlock, uploadedPaths, List.flatMap_cons, List.filterMap_cons]

theorem printedLines_flatMap_upBlock (total : Nat) (l : List Str) :
    printedLines (l.flatMap (upBlock total)) = l.map (progressLine total) := by
  induction l with
  | nil => rfl
  | cons image rest ih =>
      simp_all [upBlock, printedLines, List.flatMap_cons, List.filterMap_cons]

theorem countP_upload_flatMap_upBlock (total : Nat) (l : List Str) (p : Str) :
    (l.flatMap (upBlock total)).countP (fun ev => ev = UpEv.upload p 3) =
      l.countP (fun q => q = p) := by
  induction l with
  | nil => rfl
  | cons image rest ih =>
      rw [List.flatMap_cons, List.countP_append, ih]
      by_cases h : image = p
      · subst h
        simp [upBlock, List.countP_cons]
        omega
      · have h2 : (UpEv.upload image 3 : UpEv) ≠ UpEv.upload p 3 := by
          simp [h]
        simp [upBlock, List.countP_cons, h2, h]

theorem countP_eq_one_of_nodup_mem {α : Type _} [DecidableEq α]
    {l : List α} {p : α} (hd : l.Nodup) (hp : p ∈ l) :
    l.countP (fun q => q = p) = 1 := by
  induction l with
  | nil => cases hp
  | cons a t ih =>
      rcases List.nodup_cons.mp hd with ⟨ha, ht⟩
      rw [List.countP_cons]
      rcases List.mem_cons.mp hp with rfl | hp2
      · rw [if_pos (by simp)]
        have hz : t.countP (fun q => q = p) = 0 :=
          List.countP_eq_zero.mpr (fun b hb => by
            simp only [decide_eq_true_eq]
            intro hbp
            exact ha (hbp ▸ hb))
        omega
      · rw [ih ht hp2, if_neg ?_]
        simp only [decide_eq_true_eq]
        intro hap
        exact ha (hap ▸ hp2)

theorem mem_upload_flatMap_upBlock (total : Nat) (l : List Str) (p : Str)
    (n : Nat) (h : UpEv.upload p n ∈ l.flatMap (upBlock total)) :
    n = 3 ∧ p ∈ l := by
  rcases List.mem_flatMap.mp h with ⟨q, hq, hmem⟩
  rcases List.mem_cons.mp hmem with h1 | h1
  · cases h1
    exact ⟨rfl, hq⟩
  · rcases List.mem_singleton.mp h1 with h2
    cases h2

theorem glob_glob_eq (dirPath : Str) (entries : List FsEntry) :
    glob_glob dirPath entries =
      (entries.filter fun e => globMatch (entryName e)).map
        fun e => dirPath ++ entryName e := by
  induction entries with
  | nil => rfl
  | cons e rest ih =>
      by_cases h : globMatch (entryName e) <;>
        simp [glob_glob, List.filterMap_cons, List.filter_cons, h] <;>
        simpa [glob_glob] using ih

theorem mem_glob_glob {dirPath : Str} {entries : List FsEntry} {p : Str} :
    p ∈ glob_glob dirPath entries ↔
      ∃ e ∈ entries, globMatch (entryName e) = true ∧
        p = dirPath ++ entryName e := by
  rw [glob_glob_eq]
  constructor
  · intro h
    rcases List.mem_map.mp h with ⟨e, he, hp⟩
    rcases List.mem_filter.mp he with ⟨he1, he2⟩
    exact ⟨e, he1, he2, hp.symm⟩
  · rintro ⟨e, he, hm, rfl⟩
    exact List.mem_map.mpr ⟨e, List.mem_filter.mpr ⟨he, hm⟩, rfl⟩

theorem glob_glob_nodup (dirPath : Str) (entries : List FsEntry)
    (h : (entries.map entryName).Nodup) : (glob_glob dirPath entries).Nodup := by
  rw [glob_glob_eq]
  have h1 : (entries.filter fun e => globMatch (entryName e)).map
      (fun e => dirPath ++ entryName e) =
      ((entries.filter fun e => globMatch (entryName e)).map entryName).map
        (fun n => dirPath ++ n) := by
    rw [List.map_map]
    rfl
  rw [h1]
  apply List.Nodup.map
  · intro a b hab
    exact List.append_cancel_left hab
  · exact List.Nodup.sublist
      (List.Sublist.map entryName (List.filter_sublist entries)) h

theorem saveBatch_events (save : Str → Image → Except PyErr Unit)
    (disp : Bool) (dir : Str) (i npp : Nat) :
    ∀ (l : List (Nat × Image)) (ev : Ev Image),
      ev ∈ (saveBatch save disp dir i npp l).1 →
      (∃ k im, ev = Ev.save (imageName dir k) im) ∨
        (∃ k, ev = Ev.display (imageName dir k)) := by
  intro l
  induction l with
  | nil => intro ev h; cases h
  | cons q rest ih =>
      obtain ⟨idx, image⟩ := q
      intro ev h
      cases hsv : save (imageName dir (i * npp + idx)) image with
      | error e =>
          rw [show (saveBatch save disp dir i npp ((idx, image) :: rest)) =
            ([], some e) by simp [saveBatch, hsv]] at h
          cases h
      | ok u =>
          simp only [saveBatch, hsv] at h
          rcases List.mem_cons.mp h with rfl | h2
          · exact Or.inl ⟨i * npp + idx, image, rfl⟩
          · cases disp with
            | false => exact ih ev h2
            | true =>
                rcases List.mem_cons.mp h2 with rfl | h3
                · exact Or.inr ⟨i * npp + idx, rfl⟩
                · exact ih ev h3

theorem genLoop_events (pipeline : Nat → Except PyErr (List Image))
    (save : Str → Image → Except PyErr Unit)
    (prompt : Str) (npp gs : Nat) (dir : Str) (disp : Bool) :
    ∀ (fuel i : Nat) (ev : Ev Image),
      ev ∈ (genLoop pipeline save prompt npp gs dir disp i fuel).1 →
      ev = Ev.pipelineCall prompt npp gs ∨
        (∃ k im, ev = Ev.save (imageName dir k) im) ∨
          (∃ k, ev = Ev.display (imageName dir k)) := by
  intro fuel
  induction fuel with
  | zero => intro i ev h; cases h
  | succ fuel ih =>
      intro i ev h
      cases hpi : pipeline i with
      | error e =>
          simp only [genLoop, hpi] at h
          rcases List.mem_singleton.mp h with rfl
          exact Or.inl rfl
      | ok imgs =>
          simp only [genLoop, hpi] at h
          cases hb : (saveBatch save disp dir i npp imgs.enum).2 with
          | some e =>
              rw [hb] at h
              rcases List.mem_cons.mp h with rfl | h2
              · exact Or.inl rfl
              · exact Or.inr (saveBatch_events save disp dir i npp imgs.enum ev h2)
          | none =>
              rw [hb] at h
              rcases List.mem_cons.mp h with rfl | h2
              · exact Or.inl rfl
              · rcases List.mem_append.mp h2 with h3 | h3
                · exact Or.inr (saveBatch_events save disp dir i npp imgs.enum ev h3)
                · exact ih (i + 1) ev h3

theorem saveBatch_stop (save : Str → Image → Except PyErr Unit)
    (disp : Bool) (dir : Str) (i npp : Nat) (bad : Image) (e : PyErr)
    (hbad : ∀ p, save p bad = .error e) :
    ∀ (pre : List (Nat × Image)) (idx : Nat) (post : List (Nat × Image)),
      (∀ q ∈ pre, save (imageName dir (i * npp + q.1)) q.2 = .ok ()) →
      saveBatch save disp dir i npp (pre ++ (idx, bad) :: post) =
        (batchEvs disp dir i npp pre, some e) := by
  intro pre
  induction pre with
  | nil =>
      intro idx post _
      simp [saveBatch, hbad, batchEvs]
  | cons q pre' ih =>
      intro idx post hok
      obtain ⟨jdx, image⟩ := q
      have h₁ := hok (jdx, image) (List.mem_cons_self _ _)
      simp only [List.cons_append, saveBatch, h₁, List.append_eq]
      rw [ih idx post (fun q hq => hok q (List.mem_cons_of_mem _ hq))]
      cases disp <;> simp [batchEvs, List.flatMap_cons]

theorem genLoop_pipeline_fail (pipeline : Nat → Except PyErr (List Image))
    (save : Str → Image → Except PyErr Unit)
    (prompt : Str) (npp gs : Nat) (dir : Str) (disp : Bool)
    (imgs : Nat → List Image) (k : Nat) (e : PyErr) :
    ∀ fuel i, i ≤ k → k < i + fuel →
      (∀ j, i ≤ j → j < k → pipeline j = .ok (imgs j)) →
      pipeline k = .error e →
      (∀ p im, save p im = .ok ()) →
      genLoop pipeline save prompt npp gs dir disp i fuel =
        ((List.range' i (k - i)).flatMap (blockEvs prompt npp gs dir disp imgs)
          ++ [Ev.pipelineCall prompt npp gs], some e) := by
  intro fuel
  induction fuel with
  | zero => intro i h1 h2; omega
  | succ fuel ih =>
      intro i hik hk hp hpk hs
      by_cases hieq : i = k
      · subst hieq
        have hz : i - i = 0 := by omega
        simp [genLoop, hpk, hz]
      · have hpi : pipeline i = .ok (imgs i) := hp i le_rfl (by omega)
        have hbatch := saveBatch_ok save disp dir i npp (imgs i).enum
          (fun p _ => hs _ _)
        simp only [genLoop, hpi, hbatch]
        rw [ih (i + 1) (by omega) (by omega)
          (fun j ha hb => hp j (by omega) hb) hpk hs]
        have hki : k - i = (k - (i + 1)) + 1 := by omega
        rw [hki, List.range'_succ, List.flatMap_cons]
        simp [blockEvs]

theorem genLoop_save_fail (pipeline : Nat → Except PyErr (List Image))
    (save : Str → Image → Except PyErr Unit)
    (prompt : Str) (npp gs : Nat) (dir : Str) (disp : Bool)
    (imgs : Nat → List Image) (k : Nat) (bad : Image) (e : PyErr)
    (pre post : List Image)
    (hbad : ∀ p, save p bad = .error e)
    (hok : ∀ p im, im ≠ bad → save p im = .ok ())
    (hsplit : imgs k = pre ++ bad :: post)
    (hpre : bad ∉ pre) :
    ∀ fuel i, i ≤ k → k < i + fuel →
      (∀ j, i ≤ j → j ≤ k → pipeline j = .ok (imgs j)) →
      (∀ j, i ≤ j → j < k → bad ∉ imgs j) →
      genLoop pipeline save prompt npp gs dir disp i fuel =
        ((List.range' i (k - i)).flatMap (blockEvs prompt npp gs dir disp imgs)
          ++ (Ev.pipelineCall prompt npp gs ::
              batchEvs disp dir k npp pre.enum), some e) := by
  intro fuel
  induction fuel with
  | zero => intro i h1 h2; omega
  | succ fuel ih =>
      intro i hik hk hp hnb
      by_cases hieq : i = k
      · subst hieq
        have hpi : pipeline i = .ok (imgs i) := hp i le_rfl le_rfl
        have henum : (imgs i).enum =
            pre.enum ++ (pre.length, bad) :: List.enumFrom (pre.length + 1) post := by
          rw [hsplit]
          show List.enumFrom 0 (pre ++ bad :: post) = _
          rw [List.enumFrom_append]
          simp [List.enumFrom_cons, List.enum]
        have hstop := saveBatch_stop save disp dir i npp bad e hbad pre.enum
          pre.length (List.enumFrom (pre.length + 1) post)
          (by
            intro q hq
            apply hok
            intro hq2
            apply hpre
            rw [← hq2]
            have : q.2 ∈ pre.enum.map Prod.snd := List.mem_map_of_mem Prod.snd hq
            rwa [List.enum_map_snd] at this)
        have hz : i - i = 0 := by omega
        simp only [genLoop, hpi, henum, hstop, hz]
        simp
      · have hpi : pipeline i = .ok (imgs i) := hp i le_rfl (by omega)
        have hbatch := saveBatch_ok save disp dir i npp (imgs i).enum
          (fun p hp2 => by
            apply hok
            intro hq2
            apply hnb i le_rfl (by omega)
            rw [← hq2]
            have : p.2 ∈ (imgs i).enum.map Prod.snd := List.mem_map_of_mem Prod.snd hp2
            rwa [List.enum_map_snd] at this)
        simp only [genLoop, hpi, hbatch]
        rw [ih (i + 1) (by omega) (by omega)
          (fun j ha hb => hp j (by omega) hb)
          (fun j ha hb => hnb j (by omega) hb)]
        have hki : k - i = (k - (i + 1)) + 1 := by omega
        rw [hki, List.range'_succ, List.flatMap_cons]
        simp [blockEvs]

theorem uploadGo_fail (upload : Str → Nat → Except PyErr Unit) (total : Nat)
    (bad : Str) (e : PyErr) (hb : upload bad 3 = .error e) :
    ∀ (pre post : List Str), (∀ p ∈ pre, upload p 3 = .ok ()) →
      uploadGo upload total (pre ++ bad :: post) =
        (pre.flatMap (upBlock total) ++ [UpEv.upload bad 3], some e) := by
  intro pre
  induction pre with
  | nil =>
      intro post _
      simp [uploadGo, hb]
  | cons q pre' ih =>
      intro post hok
      have h₁ := hok q (List.mem_cons_self _ _)
      simp only [List.cons_append, uploadGo, h₁, List.append_eq]
      rw [ih post (fun p hp => hok p (List.mem_cons_of_mem _ hp))]
      simp [upBlock, List.flatMap_cons]

end GenerateTheorems

section ExpDirTheorems

theorem digit_ne_e {c : Char} (h : c.isDigit = true) : c ≠ 'e' := by
  intro he
  subst he
  simp [Char.isDigit] at h

theorem digit_not_ws {c : Char} (h : c.isDigit = true) :
    c.isWhitespace = false := by
  cases hws : c.isWhitespace with
  | false => rfl
  | true =>
      exfalso
      have hc : ((c = ' ' ∨ c = '\t') ∨ c = '\x0d') ∨ c = '\n' := by
        simpa [Char.isWhitespace] using hws
      rcases hc with ((rfl | rfl) | rfl) | rfl <;> simp [Char.isDigit] at h

theorem replaceExpEmpty_cons_ne {c : Char} (t : Str) (hc : c ≠ 'e') :
    replaceExpEmpty (c :: t) = c :: replaceExpEmpty t := by
  rw [replaceExpEmpty.eq_def]
  split
  · next rest heq =>
      injection heq with h1 h2
      exact absurd h1 hc
  · next c2 rest hne heq =>
      injection heq with h1 h2
      subst h1
      subst h2
      rfl
  · next heq => exact absurd heq (List.cons_ne_nil c t)

theorem replaceExpEmpty_digits (ds : Str) (h : ∀ c ∈ ds, c.isDigit = true) :
    replaceExpEmpty ds = ds := by
  induction ds with
  | nil => rfl
  | cons c t ih =>
      rw [replaceExpEmpty_cons_ne t
        (digit_ne_e (h c (List.mem_cons_self _ _))),
        ih (fun x hx => h x (List.mem_cons_of_mem _ hx))]

theorem replaceExpEmpty_exp (ds : Str) :
    replaceExpEmpty (str "exp" ++ ds) = replaceExpEmpty ds := rfl

theorem pyIntDigits_cons_digit {c : Char} (acc : Nat) (t : Str)
    (hc : c.isDigit = true) :
    pyIntDigits acc (c :: t) = pyIntDigits (10 * acc + digitVal c) t := by
  have hne : c ≠ '_' := by
    intro he
    subst he
    simp [Char.isDigit] at hc
  rw [pyIntDigits.eq_def]
  split
  · next heq => exact absurd heq (List.cons_ne_nil c t)
  · next c2 rest heq =>
      injection heq with h1 h2
      exact absurd h1 hne
  · next heq =>
      injection heq with h1 h2
      exact absurd h1 hne
  · next c2 rest hne1 hne2 heq =>
      injection heq with h1 h2
      subst h1
      subst h2
      rw [if_pos hc]

theorem pyIntDigits_digits :
    ∀ (ds : Str), (∀ c ∈ ds, c.isDigit = true) → ∀ acc,
      pyIntDigits acc ds =
        some (ds.foldl (fun a c => 10 * a + digitVal c) acc) := by
  intro ds
  induction ds with
  | nil => intro _ acc; rfl
  | cons c t ih =>
      intro h acc
      rw [pyIntDigits_cons_digit acc t (h c (List.mem_cons_self _ _)),
        ih (fun x hx => h x (List.mem_cons_of_mem _ hx))]
      rfl

theorem dropWhile_ws_digits (ds : Str) (h : ∀ c ∈ ds, c.isDigit = true) :
    ds.dropWhile Char.isWhitespace = ds := by
  cases ds with
  | nil => rfl
  | cons c t =>
      rw [List.dropWhile_cons]
      rw [digit_not_ws (h c (List.mem_cons_self _ _))]
      simp

theorem pyInt_digits (ds : Str) (hne : ds ≠ [])
    (h : ∀ c ∈ ds, c.isDigit = true) :
    pyInt ds = some ((digitsVal ds : Nat) : Int) := by
  have hrev : ∀ c ∈ ds.reverse, c.isDigit = true := by
    intro c hc
    exact h c (List.mem_reverse.mp hc)
  have htrim : pyStrip ds = ds := by
    unfold pyStrip
    rw [dropWhile_ws_digits ds h, dropWhile_ws_digits ds.reverse hrev,
      List.reverse_reverse]
  rw [pyInt.eq_def, htrim]
  cases hds : ds with
  | nil => exact absurd hds hne
  | cons c t =>
      subst hds
      have hc := h c (List.mem_cons_self _ _)
      have hcsub : c ≠ '-' := by
        intro he; subst he; simp [Char.isDigit] at hc
      have hcadd : c ≠ '+' := by
        intro he; subst he; simp [Char.isDigit] at hc
      have ht : ∀ x ∈ t, x.isDigit = true :=
        fun x hx => h x (List.mem_cons_of_mem _ hx)
      split
      · next c2 rest heq =>
          injection heq with h1 h2
          exact absurd h1 hcsub
      · next c2 rest heq =>
          injection heq with h1 h2
          exact absurd h1 hcadd
      · next c2 rest hne1 hne2 heq =>
          injection heq with h1 h2
          subst h1
          subst h2
          rw [if_pos hc, pyIntDigits_digits t ht (digitVal c)]
          simp [digitsVal]
      · next heq => exact absurd heq (List.cons_ne_nil c t)

theorem expKey_exp_digits (ds : Str) (h : ∀ c ∈ ds, c.isDigit = true) :
    expKey (str "exp" ++ ds) = some ((digitsVal ds : Nat) : Int) := by
  unfold expKey
  rw [replaceExpEmpty_exp, replaceExpEmpty_digits ds h]
  cases hds : ds with
  | nil => simp [digitsVal]
  | cons c t =>
      rw [if_neg (by simp)]
      exact pyInt_digits (c :: t) (List.cons_ne_nil c t) (hds ▸ h)

theorem expKey_none_of_bad (x : Str) (h1 : replaceExpEmpty x ≠ [])
    (h2 : pyInt (replaceExpEmpty x) = none) : expKey x = none := by
  unfold expKey
  rw [if_neg h1]
  exact h2

theorem decorateKeys_none (listing : List Str) (x : Str) (hx : x ∈ listing)
    (hk : expKey x = none) : decorateKeys listing = none := by
  induction listing with
  | nil => cases hx
  | cons y rest ih =>
      rcases List.mem_cons.mp hx with rfl | hx2
      · simp [decorateKeys, hk]
      · rw [decorateKeys, ih hx2]
        cases expKey y <;> rfl

theorem decorateKeys_some (listing : List Str)
    (h : ∀ x ∈ listing, ∃ k, expKey x = some k) :
    ∃ keyed, decorateKeys listing = some keyed ∧
      keyed.map Prod.snd = listing ∧
      ∀ q ∈ keyed, expKey q.2 = some q.1 := by
  induction listing with
  | nil => exact ⟨[], rfl, rfl, by intro q hq; cases hq⟩
  | cons y rest ih =>
      obtain ⟨k, hk⟩ := h y (List.mem_cons_self _ _)
      obtain ⟨keyed, h1, h2, h3⟩ :=
        ih (fun x hx => h x (List.mem_cons_of_mem _ hx))
      refine ⟨(k, y) :: keyed, ?_, ?_, ?_⟩
      · rw [decorateKeys, hk, h1]
      · simp [h2]
      · intro q hq
        rcases List.mem_cons.mp hq with rfl | hq2
        · exact hk
        · exact h3 q hq2

theorem sorted_getLast?_le {α : Type _} {r : α → α → Prop} :
    ∀ (l : List α) (m : α), l.Sorted r → l.getLast? = some m →
      ∀ x ∈ l, r x m ∨ x = m
  | [], m, _, h, x, hx => by cases hx
  | [a], m, _, h, x, hx => by
      have ha : a = m := by
        simpa [List.getLast?] using h
      rcases List.mem_singleton.mp hx with rfl
      exact Or.inr ha
  | a :: b :: t, m, hs, h, x, hx => by
      rw [List.getLast?_cons_cons] at h
      rcases List.sorted_cons.mp hs with ⟨ha, hs2⟩
      rcases List.mem_cons.mp hx with rfl | hx2
      · refine Or.inl (ha m ?_)
        rcases List.mem_getLast?_eq_getLast (Option.mem_def.mpr h) with ⟨hne, hm⟩
        rw [hm]
        exact List.getLast_mem hne
      · exact sorted_getLast?_le (b :: t) m hs2 h x hx2

theorem EXP_DIR_some (listing : List Str) (keyed : List (Int × Str))
    (hdec : decorateKeys listing = some keyed)
    (hsnd : keyed.map Prod.snd = listing)
    (hkeys : ∀ q ∈ keyed, expKey q.2 = some q.1)
    (hne : listing ≠ []) :
    ∃ r, EXP_DIR listing = some r ∧ r ∈ listing ∧
      ∀ x ∈ listing, ∀ kx kr : Int,
        expKey x = some kx → expKey r = some kr → kx ≤ kr := by
  have hkne : keyed ≠ [] := by
    intro hk
    apply hne
    rw [← hsnd, hk]
    rfl
  haveI : IsTotal (Int × Str) (fun a b => a.1 ≤ b.1) :=
    ⟨fun a b => le_total a.1 b.1⟩
  haveI : IsTrans (Int × Str) (fun a b => a.1 ≤ b.1) :=
    ⟨fun a b c hab hbc => le_trans hab hbc⟩
  have hsorted := List.sorted_insertionSort (fun a b : Int × Str => a.1 ≤ b.1)
    keyed
  have hperm := List.perm_insertionSort (fun a b : Int × Str => a.1 ≤ b.1)
    keyed
  have hsne : keyed.insertionSort (fun a b => a.1 ≤ b.1) ≠ [] := by
    intro hk
    exact hkne (List.Perm.eq_nil (hk ▸ hperm).symm)
  obtain ⟨q, hq⟩ := Option.ne_none_iff_exists'.mp
    (mt List.getLast?_eq_none_iff.mp hsne :
      (keyed.insertionSort (fun a b => a.1 ≤ b.1)).getLast? ≠ none)
  have hqmem : q ∈ keyed := (hperm.mem_iff).mp (by
    rcases List.mem_getLast?_eq_getLast (Option.mem_def.mpr hq) with ⟨hne2, hm⟩
    rw [hm]
    exact List.getLast_mem hne2)
  refine ⟨q.2, ?_, ?_, ?_⟩
  · unfold EXP_DIR
    rw [hdec]
    show ((keyed.insertionSort (fun a b => a.1 ≤ b.1)).map Prod.snd).getLast? =
      some q.2
    rw [List.getLast?_map, hq]
    rfl
  · rw [← hsnd]
    exact List.mem_map_of_mem Prod.snd hqmem
  · intro x hx kx kr hkx hkr
    rw [← hsnd] at hx
    rcases List.mem_map.mp hx with ⟨p, hp, hpx⟩
    have hpk : expKey p.2 = some p.1 := hkeys p hp
    rw [hpx] at hpk
    have hkx2 : kx = p.1 := by
      rw [hkx] at hpk
      exact Option.some_inj.mp hpk
    have hqk : expKey q.2 = some q.1 := hkeys q hqmem
    have hkr2 : kr = q.1 := by
      rw [hkr] at hqk
      exact Option.some_inj.mp hqk
    subst hkx2
    subst hkr2
    have hpmem : p ∈ keyed.insertionSort (fun a b => a.1 ≤ b.1) :=
      (hperm.mem_iff).mpr hp
    rcases sorted_getLast?_le _ q hsorted hq p hpmem with hle | heq
    · exact hle
    · rw [heq]

theorem EXP_DIR_nil : EXP_DIR [] = none := rfl

theorem EXP_DIR_bad (listing : List Str) (x : Str) (hx : x ∈ listing)
    (hk : expKey x = none) : EXP_DIR listing = none := by
  unfold EXP_DIR
  rw [decorateKeys_none listing x hx hk]

end ExpDirTheorems

section ClaimSupport

theorem imageName_split (dir : Str) (k : Nat) :
    imageName dir k =
      dir ++ str "/" ++ (str "image_" ++ decRepr k ++ str ".png") := by
  unfold imageName
  rw [show (str "/image_" : Str) = str "/" ++ str "image_" by decide]
  simp [List.append_assoc]

theorem globMatch_endsPng (nm : Str) (h : globMatch nm = true) :
    ∃ s, nm = s ++ str ".png" := by
  unfold globMatch at h
  split at h
  · exact absurd h (by simp)
  · split at h
    · next t heq =>
        refine ⟨t.reverse, ?_⟩
        have hpng : (str ".png" : Str) = ['.', 'p', 'n', 'g'] := by decide
        calc nm = nm.reverse.reverse := (List.reverse_reverse nm).symm
          _ = ('g' :: 'n' :: 'p' :: '.' :: t).reverse := by rw [heq]
          _ = t.reverse ++ ['.', 'p', 'n', 'g'] := by simp
          _ = t.reverse ++ str ".png" := by rw [hpng]
    · exact absurd h (by simp)

end ClaimSupport

section Claims

/-- Claim C1 (corrected).  The original claim says a completed call to
`generate_images` produces exactly `num_images_to_generate` files for any
`num_images_per_prompt`; the code floors the iteration count, so a
completed call (with the pipeline returning `num_images_per_prompt` images
per invocation and every save succeeding) produces exactly
`(num_images_to_generate // num_images_per_prompt) * num_images_per_prompt`
files, which equals `num_images_to_generate` exactly when
`num_images_per_prompt` divides `num_images_to_generate`. -/
theorem C1_theorem {Image : Type}
    (pipeline : Nat → Except PyErr (List Image))
    (save : Str → Image → Except PyErr Unit) (imgs : Nat → List Image)
    (prompt : Str) (total npp gs : Nat) (dir : Str)
    (hp : ∀ j, pipeline j = .ok (imgs j))
    (hs : ∀ p im, save p im = .ok ())
    (hlen : ∀ j, (imgs j).length = npp) :
    (generate_images pipeline save prompt total npp gs dir false).2 = none ∧
    (savedPaths
        (generate_images pipeline save prompt total npp gs dir false).1).length
      = total / npp * npp ∧
    (npp ∣ total →
      (savedPaths
        (generate_images pipeline save prompt total npp gs dir false).1).length
        = total) := by
  have h1 := generate_images_ok pipeline save prompt total npp gs dir false
    imgs hp hs
  have h2 := savedPaths_run pipeline save prompt total npp gs dir false
    imgs hp hs hlen
  refine ⟨?_, ?_, ?_⟩
  · rw [h1]
  · rw [h2, List.length_map, List.length_range]
  · intro hd
    rw [h2, List.length_map, List.length_range, Nat.div_mul_cancel hd]

/-- Claim C1, counterexample to the original statement: with the default
`num_images_per_prompt = 4`, `num_images_to_generate = 3` and a pipeline
that returns four images per call, the call completes yet saves zero image
files, not three. -/
theorem C1_counterexample :
    (generate_images pipeFour okOracle (str "aerial view of cattle") 3 4 8
      (str "generated_images") false).2 = none ∧
    (savedPaths (generate_images pipeFour okOracle
      (str "aerial view of cattle") 3 4 8
      (str "generated_images") false).1).length = 0 ∧
    (0 : Nat) ≠ 3 :=
  ⟨rfl, rfl, by decide⟩

/-- Claim C1, witness: at `num_images_to_generate = 8`,
`num_images_per_prompt = 4` (which divides 8) the amended claim yields
exactly 8 saved files. -/
theorem C1_witness :
    (4 ∣ 8) ∧
    (savedPaths (generate_images pipeFour okOracle (str "a cat") 8 4 8
      (str "generated_images") false).1).length = 8 :=
  ⟨by decide,
    (C1_theorem pipeFour okOracle imgsFour (str "a cat") 8 4 8
      (str "generated_images") (fun _ => rfl) (fun _ _ => rfl)
      (fun _ => rfl)).2.2 (by decide)⟩

/-- Claim C2 (confirmed).  For `num_images_per_prompt > 0` and a pipeline
that returns `imgs j` at its `j`-th invocation, `generate_images` invokes
the pipeline exactly `num_images_to_generate // num_images_per_prompt`
times, and the images saved are exactly the concatenation of the images
returned by the successive invocations. -/
theorem C2_theorem {Image : Type}
    (pipeline : Nat → Except PyErr (List Image))
    (save : Str → Image → Except PyErr Unit) (imgs : Nat → List Image)
    (prompt : Str) (total npp gs : Nat) (dir : Str) (disp : Bool)
    (_hnpp : 0 < npp)
    (hp : ∀ j, pipeline j = .ok (imgs j))
    (hs : ∀ p im, save p im = .ok ()) :
    pipelineCalls
        (generate_images pipeline save prompt total npp gs dir disp).1
      = total / npp ∧
    savedImages (generate_images pipeline save prompt total npp gs dir disp).1
      = (List.range (total / npp)).flatMap imgs := by
  have h1 := generate_images_ok pipeline save prompt total npp gs dir disp
    imgs hp hs
  constructor
  · rw [h1]
    have hm : pipelineCalls ((Ev.makedirs dir true : Ev Image) ::
        (List.range (total / npp)).flatMap
          (blockEvs prompt npp gs dir disp imgs)) =
        pipelineCalls ((List.range (total / npp)).flatMap
          (blockEvs prompt npp gs dir disp imgs)) := by
      unfold pipelineCalls
      rw [List.countP_cons]
      simp
    rw [hm, pipelineCalls_flatMap_blockEvs, List.length_range]
  · rw [h1]
    have hm : savedImages ((Ev.makedirs dir true : Ev Image) ::
        (List.range (total / npp)).flatMap
          (blockEvs prompt npp gs dir disp imgs)) =
        savedImages ((List.range (total / npp)).flatMap
          (blockEvs prompt npp gs dir disp imgs)) := rfl
    rw [hm, savedImages_flatMap_blockEvs]

/-- Claim C2, witness at `num_images_to_generate = 8`,
`num_images_per_prompt = 4`: two pipeline invocations, whose returned
images are all saved. -/
theorem C2_witness :
    pipelineCalls (generate_images pipeFour okOracle (str "a cat") 8 4 8
      (str "generated_images") false).1 = 2 ∧
    savedImages (generate_images pipeFour okOracle (str "a cat") 8 4 8
      (str "generated_images") false).1
      = (List.range 2).flatMap imgsFour :=
  C2_theorem pipeFour okOracle imgsFour (str "a cat") 8 4 8
    (str "generated_images") false (by decide) (fun _ => rfl)
    (fun _ _ => rfl)

/-- Claim C3 (confirmed).  When the pipeline returns exactly
`num_images_per_prompt` images per call, the files saved by a completed
run are exactly `output_dir/image_k.png` for the contiguous range
`k = 0, ..., num_iterations*num_images_per_prompt - 1`, in that order, and
the saved paths are pairwise distinct, so no file written in the run is
overwritten by a later write of the same run. -/
theorem C3_theorem {Image : Type}
    (pipeline : Nat → Except PyErr (List Image))
    (save : Str → Image → Except PyErr Unit) (imgs : Nat → List Image)
    (prompt : Str) (total npp gs : Nat) (dir : Str) (disp : Bool)
    (hp : ∀ j, pipeline j = .ok (imgs j))
    (hs : ∀ p im, save p im = .ok ())
    (hlen : ∀ j, (imgs j).length = npp) :
    savedPaths (generate_images pipeline save prompt total npp gs dir disp).1
      = (List.range (total / npp * npp)).map (imageName dir) ∧
    (savedPaths
      (generate_images pipeline save prompt total npp gs dir disp).1).Nodup := by
  have h2 := savedPaths_run pipeline save prompt total npp gs dir disp
    imgs hp hs hlen
  refine ⟨h2, ?_⟩
  rw [h2]
  exact List.Nodup.map (imageName_injective dir) (List.nodup_range _)

/-- Claim C3, witness: the concrete run with 8 images in batches of 4
saves exactly `image_0.png ... image_7.png` in order, with no duplicate
path. -/
theorem C3_witness :
    savedPaths (generate_images pipeFour okOracle (str "a cat") 8 4 8
      (str "generated_images") false).1
      = (List.range 8).map (imageName (str "generated_images")) ∧
    (savedPaths (generate_images pipeFour okOracle (str "a cat") 8 4 8
      (str "generated_images") false).1).Nodup :=
  C3_theorem pipeFour okOracle imgsFour (str "a cat") 8 4 8
    (str "generated_images") false (fun _ => rfl) (fun _ _ => rfl)
    (fun _ => rfl)

/-- Claim C7 (confirmed).  Whatever the pipeline and save calls do,
every filesystem write performed by `generate_images` targets either
`output_dir` itself (the single `os.makedirs(output_dir, exist_ok=True)`)
or a file `output_dir/image_k.png` inside it; no other location is
touched. -/
theorem C7_theorem (Image : Type)
    (pipeline : Nat → Except PyErr (List Image))
    (save : Str → Image → Except PyErr Unit)
    (prompt : Str) (total npp gs : Nat) (dir : Str) (disp : Bool)
    (ev : Ev Image) (p : Str)
    (hmem : ev ∈ (generate_images pipeline save prompt total npp gs dir disp).1)
    (hw : writeTarget ev = some p) :
    (ev = Ev.makedirs dir true ∧ p = dir) ∨
    (∃ k im, ev = Ev.save (imageName dir k) im ∧
      p = dir ++ str "/" ++ (str "image_" ++ decRepr k ++ str ".png")) := by
  have hmem2 : ev = Ev.makedirs dir true ∨
      ev ∈ (genLoop pipeline save prompt npp gs dir disp 0
        (total / npp)).1 := by
    simp only [generate_images] at hmem
    exact List.mem_cons.mp hmem
  rcases hmem2 with rfl | h2
  · left
    refine ⟨rfl, ?_⟩
    have : (some dir : Option Str) = some p := hw
    exact (Option.some_inj.mp this).symm
  · rcases genLoop_events pipeline save prompt npp gs dir disp
      (total / npp) 0 ev h2 with rfl | ⟨k, im, rfl⟩ | ⟨k, rfl⟩
    · exact absurd hw (by simp [writeTarget])
    · right
      refine ⟨k, im, rfl, ?_⟩
      have : (some (imageName dir k) : Option Str) = some p := hw
      rw [← Option.some_inj.mp this]
      exact imageName_split dir k
    · exact absurd hw (by simp [writeTarget])

/-- Claim C7, witness: in a concrete completed run the write of
`image_0.png` indeed lands inside the output directory, at the path the
claim predicts. -/
theorem C7_witness :
    imageName (str "generated_images") 0 =
      str "generated_images" ++ str "/" ++
        (str "image_" ++ decRepr 0 ++ str ".png") := by
  rcases C7_theorem Nat pipeFour okOracle (str "a cat") 4 4 8
      (str "generated_images") false
      (Ev.save (imageName (str "generated_images") 0) 0)
      (imageName (str "generated_images") 0) (by decide) rfl with
    ⟨h1, _⟩ | ⟨k, im, h1, h2⟩
  · cases h1
  · have hk : (0 : Nat) = k := imageName_injective (str "generated_images")
      (by injection h1 with h3 h4)
    rw [← hk] at h2
    exact h2

/-- Claim C8 (confirmed).  When `num_images_to_generate` is strictly
smaller than `num_images_per_prompt`, the floored iteration count is zero:
`generate_images` performs no pipeline call and saves no file, but still
creates the output directory. -/
theorem C8_theorem (Image : Type)
    (pipeline : Nat → Except PyErr (List Image))
    (save : Str → Image → Except PyErr Unit)
    (prompt : Str) (total npp gs : Nat) (dir : Str) (disp : Bool)
    (h : total < npp) :
    generate_images pipeline save prompt total npp gs dir disp
      = ([Ev.makedirs dir true], none) ∧
    pipelineCalls
      (generate_images pipeline save prompt total npp gs dir disp).1 = 0 ∧
    savedPaths
      (generate_images pipeline save prompt total npp gs dir disp).1 = [] := by
  have hz : total / npp = 0 := Nat.div_eq_of_lt h
  have h1 : generate_images pipeline save prompt total npp gs dir disp
      = ([Ev.makedirs dir true], none) := by
    simp only [generate_images, hz]
    rfl
  refine ⟨h1, ?_, ?_⟩ <;> rw [h1] <;> rfl

/-- Claim C8, witness: the default `num_images_per_prompt = 4` with
`num_images_to_generate = 3` yields zero pipeline calls and zero saved
files, with only the directory creation performed. -/
theorem C8_witness :
    generate_images pipeFour okOracle (str "aerial view of cattle") 3 4 8
      (str "generated_images") false
      = ([Ev.makedirs (str "generated_images") true], none) ∧
    pipelineCalls (generate_images pipeFour okOracle
      (str "aerial view of cattle") 3 4 8
      (str "generated_images") false).1 = 0 ∧
    savedPaths (generate_images pipeFour okOracle
      (str "aerial view of cattle") 3 4 8
      (str "generated_images") false).1 = [] :=
  C8_theorem Nat pipeFour okOracle (str "aerial view of cattle") 3 4 8
    (str "generated_images") false (by decide)

/-- Claim C4 (corrected).  The upload loop enumerates exactly the
top-level entries of the `generated_images` directory whose names end in
`.png` and do not begin with a period (Python `glob` skips hidden names;
so-named subdirectories are also matched), and for every matched entry
calls the SDK upload exactly once with `num_retry_uploads = 3`; the loop
itself performs no retries, and a file with a non-`.png` name or a file
inside a subdirectory is never uploaded. -/
theorem C4_theorem (home : Str) (entries : List FsEntry)
    (upload : Str → Nat → Except PyErr Unit)
    (hslash : ∀ e ∈ entries, ('/' : Char) ∉ entryName e)
    (hnodup : (entries.map entryName).Nodup)
    (hu : ∀ p n, upload p n = .ok ()) :
    glob_glob (image_dir home) entries =
      (entries.filter fun e => globMatch (entryName e)).map
        (fun e => image_dir home ++ entryName e) ∧
    (∀ p ∈ glob_glob (image_dir home) entries,
      ((upload_images upload (glob_glob (image_dir home) entries)).1).countP
        (fun ev => ev = UpEv.upload p 3) = 1) ∧
    (∀ p n, UpEv.upload p n ∈
        (upload_images upload (glob_glob (image_dir home) entries)).1 →
      n = 3 ∧ p ∈ glob_glob (image_dir home) entries) ∧
    (∀ nm : Str, FsEntry.file nm ∈ entries → (∀ s, nm ≠ s ++ str ".png") →
      (image_dir home ++ nm) ∉ uploadedPaths
        (upload_images upload (glob_glob (image_dir home) entries)).1) ∧
    (∀ (nm : Str) (contents : List Str) (f : Str),
      FsEntry.dir nm contents ∈ entries → f ∈ contents →
      (image_dir home ++ (nm ++ str "/" ++ f)) ∉ uploadedPaths
        (upload_images upload (glob_glob (image_dir home) entries)).1) := by
  have htr := upload_images_ok upload (glob_glob (image_dir home) entries) hu
  have htr1 : (upload_images upload (glob_glob (image_dir home) entries)).1 =
      (glob_glob (image_dir home) entries).flatMap
        (upBlock (glob_glob (image_dir home) entries).length) := by
    rw [htr]
  have hup : uploadedPaths
      (upload_images upload (glob_glob (image_dir home) entries)).1 =
      glob_glob (image_dir home) entries := by
    rw [htr1, uploadedPaths_flatMap_upBlock]
  refine ⟨glob_glob_eq _ _, ?_, ?_, ?_, ?_⟩
  · intro p hp
    rw [htr1, countP_upload_flatMap_upBlock]
    exact countP_eq_one_of_nodup_mem (glob_glob_nodup _ _ hnodup) hp
  · intro p n hmem
    rw [htr1] at hmem
    exact mem_upload_flatMap_upBlock _ _ p n hmem
  · intro nm hfile hext hmem
    rw [hup] at hmem
    rcases mem_glob_glob.mp hmem with ⟨e, he, hm, heq⟩
    have hname : nm = entryName e := List.append_cancel_left heq
    obtain ⟨s, hs⟩ := globMatch_endsPng (entryName e) hm
    exact hext s (by rw [hname, hs])
  · intro nm contents f hdir hf hmem
    rw [hup] at hmem
    rcases mem_glob_glob.mp hmem with ⟨e, he, hm, heq⟩
    have hname : nm ++ str "/" ++ f = entryName e :=
      List.append_cancel_left heq
    apply hslash e he
    rw [← hname]
    have h1 : ('/' : Char) ∈ nm ++ str "/" :=
      List.mem_append_right nm (by decide)
    exact List.mem_append_left f h1

/-- Claim C4, counterexample to the original statement: a top-level file
named `.a.png` ends with the suffix `.png`, yet the glob pattern skips the
hidden name entirely, so the loop never uploads it. -/
theorem C4_counterexample :
    str ".a.png" = str ".a" ++ str ".png" ∧
    glob_glob (str "/home/user/generated_images/")
      [FsEntry.file (str ".a.png")] = [] ∧
    (upload_images okOracle (glob_glob (str "/home/user/generated_images/")
      [FsEntry.file (str ".a.png")])).1 = [] :=
  ⟨by decide, by decide, by decide⟩

/-- Claim C4, witness: on a listing with `a.png`, `b.txt` and a
subdirectory `c.png` containing `x.png`, the glob matches `a.png` and the
entry `c.png`; `a.png` is uploaded exactly once, while `b.txt` and the
file inside the subdirectory are never uploaded. -/
theorem C4_witness :
    glob_glob (image_dir (str "/home/user")) cexEntries =
      [image_dir (str "/home/user") ++ str "a.png",
        image_dir (str "/home/user") ++ str "c.png"] ∧
    ((upload_images okOracle
        (glob_glob (image_dir (str "/home/user")) cexEntries)).1).countP
      (fun ev =>
        ev = UpEv.upload (image_dir (str "/home/user") ++ str "a.png") 3)
      = 1 ∧
    (image_dir (str "/home/user") ++ str "b.txt") ∉ uploadedPaths
      (upload_images okOracle
        (glob_glob (image_dir (str "/home/user")) cexEntries)).1 ∧
    (image_dir (str "/home/user") ++
        (str "c.png" ++ str "/" ++ str "x.png")) ∉ uploadedPaths
      (upload_images okOracle
        (glob_glob (image_dir (str "/home/user")) cexEntries)).1 := by
  have h := C4_theorem (str "/home/user") cexEntries okOracle (by decide)
    (by decide) (fun _ _ => rfl)
  refine ⟨?_, ?_, ?_, ?_⟩
  · rw [h.1]
    decide
  · exact h.2.1 _ (by decide)
  · refine h.2.2.2.1 (str "b.txt") (by decide) ?_
    intro s hs
    have h1 := congrArg List.getLast? hs
    rw [List.getLast?_append_of_ne_nil s
      (by decide : (str ".png" : Str) ≠ [])] at h1
    exact absurd h1 (by decide)
  · exact h.2.2.2.2 (str "c.png") [str "x.png"] (str "x.png") (by decide)
      (by decide)

/-- Claim C5 (confirmed).  Neither loop catches or recovers from errors:
if the pipeline call raises at iteration `k`, if a save raises on some
image of the batch of iteration `k`, or if an SDK upload raises on the
`k`-th globbed file, the exception propagates out of the loop unchanged,
and the trace of external effects is exactly the effects completed before
the failing call (the created directory, the files already saved, the
uploads already made) followed by the failing invocation — nothing is
retried, rolled back or compensated. -/
theorem C5_theorem :
    (∀ (Image : Type) (pipeline : Nat → Except PyErr (List Image))
      (save : Str → Image → Except PyErr Unit)
      (prompt : Str) (total npp gs : Nat) (dir : Str) (disp : Bool)
      (imgs : Nat → List Image) (k : Nat) (e : PyErr),
      (∀ j, j < k → pipeline j = .ok (imgs j)) →
      pipeline k = .error e →
      (∀ p im, save p im = .ok ()) →
      k < total / npp →
      generate_images pipeline save prompt total npp gs dir disp =
        (Ev.makedirs dir true ::
          ((List.range k).flatMap (blockEvs prompt npp gs dir disp imgs) ++
            [Ev.pipelineCall prompt npp gs]), some e)) ∧
    (∀ (Image : Type) (pipeline : Nat → Except PyErr (List Image))
      (save : Str → Image → Except PyErr Unit)
      (prompt : Str) (total npp gs : Nat) (dir : Str) (disp : Bool)
      (imgs : Nat → List Image) (k : Nat) (bad : Image) (e : PyErr)
      (pre post : List Image),
      (∀ p, save p bad = .error e) →
      (∀ p im, im ≠ bad → save p im = .ok ()) →
      (∀ j, j ≤ k → pipeline j = .ok (imgs j)) →
      (∀ j, j < k → bad ∉ imgs j) →
      imgs k = pre ++ bad :: post →
      bad ∉ pre →
      k < total / npp →
      generate_images pipeline save prompt total npp gs dir disp =
        (Ev.makedirs dir true ::
          ((List.range k).flatMap (blockEvs prompt npp gs dir disp imgs) ++
            (Ev.pipelineCall prompt npp gs ::
              batchEvs disp dir k npp pre.enum)), some e)) ∧
    (∀ (upload : Str → Nat → Except PyErr Unit) (pre post : List Str)
      (bad : Str) (e : PyErr),
      (∀ p ∈ pre, upload p 3 = .ok ()) →
      upload bad 3 = .error e →
      upload_images upload (pre ++ bad :: post) =
        (pre.flatMap (upBlock (pre ++ bad :: post).length) ++
          [UpEv.upload bad 3], some e)) := by
  refine ⟨?_, ?_, ?_⟩
  · intro Image pipeline save prompt total npp gs dir disp imgs k e hp hpk hs hk
    have h := genLoop_pipeline_fail pipeline save prompt npp gs dir disp imgs
      k e (total / npp) 0 (Nat.zero_le k) (by omega)
      (fun j _ h2 => hp j h2) hpk hs
    simp only [generate_images]
    rw [h, Nat.sub_zero, ← List.range_eq_range']
  · intro Image pipeline save prompt total npp gs dir disp imgs k bad e pre
      post hbad hok hp hnb hsplit hpre hk
    have h := genLoop_save_fail pipeline save prompt npp gs dir disp imgs
      k bad e pre post hbad hok hsplit hpre (total / npp) 0 (Nat.zero_le k)
      (by omega) (fun j _ h2 => hp j h2) (fun j _ h2 => hnb j h2)
    simp only [generate_images]
    rw [h, Nat.sub_zero, ← List.range_eq_range']
  · intro upload pre post bad e hok hb
    unfold upload_images
    exact uploadGo_fail upload (pre ++ bad :: post).length bad e hb pre post
      hok

/-- Claim C5, witness: concrete failing runs.  A pipeline raising on its
third invocation leaves exactly the first two iterations' effects and the
failing call in the trace; a save raising on the image value 7 (the second
image of iteration 3) leaves the first three iterations and the first
saved image of iteration 3; an upload raising on the second globbed file
leaves exactly the first file's upload and progress line. -/
theorem C5_witness :
    generate_images pipeTwoFailAt2 okOracle (str "p") 10 2 8 (str "g") false =
      (Ev.makedirs (str "g") true ::
        ((List.range 2).flatMap (blockEvs (str "p") 2 8 (str "g") false imgsTwo)
          ++ [Ev.pipelineCall (str "p") 2 8]),
        some (str "CUDA out of memory")) ∧
    generate_images pipeTwo saveFailOn7 (str "p") 8 2 8 (str "g") false =
      (Ev.makedirs (str "g") true ::
        ((List.range 3).flatMap (blockEvs (str "p") 2 8 (str "g") false imgsTwo)
          ++ (Ev.pipelineCall (str "p") 2 8 ::
            batchEvs false (str "g") 3 2 ([6] : List Nat).enum)),
        some (str "disk full")) ∧
    upload_images uploadFailB [str "d/a.png", str "d/b.png", str "d/c.png"] =
      (([str "d/a.png"] : List Str).flatMap (upBlock 3) ++
        [UpEv.upload (str "d/b.png") 3], some (str "HTTP 502")) := by
  refine ⟨?_, ?_, ?_⟩
  · exact C5_theorem.1 Nat pipeTwoFailAt2 okOracle (str "p") 10 2 8 (str "g")
      false imgsTwo 2 (str "CUDA out of memory")
      (fun j hj => by
        simp only [pipeTwoFailAt2]
        rw [if_neg (by omega)])
      rfl (fun _ _ => rfl) (by decide)
  · exact C5_theorem.2.1 Nat pipeTwo saveFailOn7 (str "p") 8 2 8 (str "g")
      false imgsTwo 3 7 (str "disk full") [6] []
      (fun _ => rfl)
      (fun p im h => by simp [saveFailOn7, h])
      (fun _ _ => rfl)
      (fun j hj => by interval_cases j <;> decide)
      (by decide) (by decide) (by decide)
  · exact C5_theorem.2.2 uploadFailB [str "d/a.png"]
      [str "d/c.png"] (str "d/b.png") (str "HTTP 502")
      (fun p hp => by
        rcases List.mem_singleton.mp hp with rfl
        rfl)
      rfl

/-- Claim C6 (confirmed).  Execution is sequential in loop order: the
trace of a completed run is the directory creation followed by the blocks
of iterations 0, 1, ... in order (no event of iteration `k+1` precedes an
event of iteration `k`), the files are saved in strictly increasing index
order, and the uploads happen in exactly the order the glob list yields
the paths. -/
theorem C6_theorem {Image : Type}
    (pipeline : Nat → Except PyErr (List Image))
    (save : Str → Image → Except PyErr Unit) (imgs : Nat → List Image)
    (prompt : Str) (total npp gs : Nat) (dir : Str) (disp : Bool)
    (upload : Str → Nat → Except PyErr Unit) (gl : List Str)
    (hp : ∀ j, pipeline j = .ok (imgs j))
    (hs : ∀ p im, save p im = .ok ())
    (hlen : ∀ j, (imgs j).length = npp)
    (hu : ∀ p n, upload p n = .ok ()) :
    (generate_images pipeline save prompt total npp gs dir disp).1 =
      Ev.makedirs dir true ::
        (List.range (total / npp)).flatMap
          (blockEvs prompt npp gs dir disp imgs) ∧
    savedPaths (generate_images pipeline save prompt total npp gs dir disp).1
      = (List.range (total / npp * npp)).map (imageName dir) ∧
    List.Pairwise (· < ·) (List.range (total / npp * npp)) ∧
    (upload_images upload gl).1 = gl.flatMap (upBlock gl.length) ∧
    uploadedPaths (upload_images upload gl).1 = gl := by
  have h1 := generate_images_ok pipeline save prompt total npp gs dir disp
    imgs hp hs
  have h2 := upload_images_ok upload gl hu
  refine ⟨by rw [h1],
    savedPaths_run pipeline save prompt total npp gs dir disp imgs hp hs hlen,
    List.pairwise_lt_range _, by rw [h2], ?_⟩
  rw [show (upload_images upload gl).1 = gl.flatMap (upBlock gl.length) from
    by rw [h2]]
  exact uploadedPaths_flatMap_upBlock gl.length gl

/-- Claim C6, witness: sequential order on a concrete run of 8 images in
batches of 4 and a two-file upload. -/
theorem C6_witness :
    (generate_images pipeFour okOracle (str "a cat") 8 4 8
      (str "generated_images") false).1 =
      Ev.makedirs (str "generated_images") true ::
        (List.range 2).flatMap
          (blockEvs (str "a cat") 4 8 (str "generated_images") false
            imgsFour) ∧
    savedPaths (generate_images pipeFour okOracle (str "a cat") 8 4 8
      (str "generated_images") false).1
      = (List.range 8).map (imageName (str "generated_images")) ∧
    List.Pairwise (· < ·) (List.range 8) ∧
    (upload_images okOracle [str "a.png", str "b.png"]).1 =
      ([str "a.png", str "b.png"] : List Str).flatMap (upBlock 2) ∧
    uploadedPaths (upload_images okOracle [str "a.png", str "b.png"]).1 =
      [str "a.png", str "b.png"] :=
  C6_theorem pipeFour okOracle imgsFour (str "a cat") 8 4 8
    (str "generated_images") false okOracle [str "a.png", str "b.png"]
    (fun _ => rfl) (fun _ _ => rfl) (fun _ => rfl) (fun _ _ => rfl)

/-- Claim C9 (confirmed).  For the YOLOv7 notebook's most-recent-run
selection: the key of `"exp"` followed by a decimal numeral (possibly
empty) is the numeral's value (bare `"exp"` counts as 0); on a non-empty
listing whose entries all have that shape the selection returns an entry
of the listing with maximal key; on an empty listing it raises
(`IndexError` of `[-1]`), and it raises (`ValueError` of `int`) whenever
some entry's residue after removing `"exp"` is non-empty and does not
parse as an integer. -/
theorem C9_theorem :
    (∀ ds : Str, (∀ c ∈ ds, c.isDigit = true) →
      expKey (str "exp" ++ ds) = some ((digitsVal ds : Nat) : Int)) ∧
    (∀ listing : List Str, listing ≠ [] →
      (∀ x ∈ listing, ∃ ds : Str,
        x = str "exp" ++ ds ∧ ∀ c ∈ ds, c.isDigit = true) →
      ∃ r, EXP_DIR listing = some r ∧ r ∈ listing ∧
        ∀ x ∈ listing, ∀ kx kr : Int,
          expKey x = some kx → expKey r = some kr → kx ≤ kr) ∧
    EXP_DIR [] = none ∧
    (∀ (listing : List Str) (x : Str), x ∈ listing →
      replaceExpEmpty x ≠ [] → pyInt (replaceExpEmpty x) = none →
      EXP_DIR listing = none) := by
  refine ⟨expKey_exp_digits, ?_, EXP_DIR_nil, ?_⟩
  · intro listing hne hform
    have hall : ∀ x ∈ listing, ∃ k, expKey x = some k := by
      intro x hx
      obtain ⟨ds, rfl, hds⟩ := hform x hx
      exact ⟨_, expKey_exp_digits ds hds⟩
    obtain ⟨keyed, h1, h2, h3⟩ := decorateKeys_some listing hall
    exact EXP_DIR_some listing keyed h1 h2 h3 hne
  · intro listing x hx h1 h2
    exact EXP_DIR_bad listing x hx (expKey_none_of_bad x h1 h2)

/-- Claim C9, witness: on the listing `exp, exp10, exp2` the selection
returns an entry (namely `exp10`, key 10); the empty listing and a
listing containing `expfoo` raise. -/
theorem C9_witness :
    expKey (str "exp" ++ str "10") = some (10 : Int) ∧
    (EXP_DIR [str "exp", str "exp10", str "exp2"]).isSome = true ∧
    EXP_DIR [] = none ∧
    EXP_DIR [str "expfoo"] = none := by
  refine ⟨?_, ?_, C9_theorem.2.2.1, ?_⟩
  · have h := C9_theorem.1 (str "10") (by decide)
    rw [h]
    decide
  · have hform : ∀ x ∈ [str "exp", str "exp10", str "exp2"],
        ∃ ds : Str, x = str "exp" ++ ds ∧ ∀ c ∈ ds, c.isDigit = true := by
      intro x hx
      simp only [List.mem_cons, List.mem_nil_iff, or_false] at hx
      rcases hx with rfl | rfl | rfl
      · exact ⟨str "", by decide, by decide⟩
      · exact ⟨str "10", by decide, by decide⟩
      · exact ⟨str "2", by decide, by decide⟩
    obtain ⟨r, hr, _⟩ := C9_theorem.2.1 [str "exp", str "exp10", str "exp2"]
      (by decide) hform
    rw [hr]
    rfl
  · exact C9_theorem.2.2.2 [str "expfoo"] (str "expfoo") (by decide)
      (by decide) (by decide)

/-- Claim C10 (confirmed).  Each progress line printed by the upload loop
embeds the constant total `len(image_glob)` — not a running index — and
exactly one line is printed per uploaded file, embedding that file's
path. -/
theorem C10_theorem (upload : Str → Nat → Except PyErr Unit)
    (gl : List Str) (hu : ∀ p n, upload p n = .ok ()) :
    printedLines (upload_images upload gl).1 =
      gl.map (progressLine gl.length) ∧
    (printedLines (upload_images upload gl).1).length =
      (uploadedPaths (upload_images upload gl).1).length ∧
    (∀ p : Str, ∃ a b : Str,
      progressLine gl.length p = a ++ decRepr gl.length ++ b) ∧
    (∀ p : Str, ∃ a b : Str, progressLine gl.length p = a ++ p ++ b) := by
  have h := upload_images_ok upload gl hu
  have h1 : (upload_images upload gl).1 = gl.flatMap (upBlock gl.length) :=
    by rw [h]
  refine ⟨?_, ?_, ?_, ?_⟩
  · rw [h1, printedLines_flatMap_upBlock]
  · rw [h1, printedLines_flatMap_upBlock, uploadedPaths_flatMap_upBlock,
      List.length_map]
  · intro p
    exact ⟨str "*** Processing image [", str "] - " ++ p ++ str " ***",
      by simp [progressLine, List.append_assoc]⟩
  · intro p
    exact ⟨str "*** Processing image [" ++ decRepr gl.length ++ str "] - ",
      str " ***", by simp [progressLine, List.append_assoc]⟩

/-- Claim C10, witness: with two globbed files, both printed lines carry
the constant count 2 and the respective path. -/
theorem C10_witness :
    printedLines (upload_images okOracle [str "a.png", str "b.png"]).1 =
      ([str "a.png", str "b.png"] : List Str).map (progressLine 2) ∧
    (printedLines (upload_images okOracle [str "a.png", str "b.png"]).1).length
      = (uploadedPaths
          (upload_images okOracle [str "a.png", str "b.png"]).1).length :=
  ⟨(C10_theorem okOracle [str "a.png", str "b.png"] (fun _ _ => rfl)).1,
    (C10_theorem okOracle [str "a.png", str "b.png"] (fun _ _ => rfl)).2.1⟩

end Claims

end Notebooks
